import Mathlib

/-!
A verification development for the NoDepRAGAgent repository.

The development shallowly embeds the tool-calling orchestration loop of
`src/nodepragagent/vllm.py` (`SearchAgent.generate_from_messages`,
`SearchAgent.handle_tools`, the `run` executor), the tool registry of
`src/nodepragagent/tools.py` (`ALL_TOOLS` / `TOOLS`), the error payloads of
`src/nodepragagent/errors.py` (`LLMError`), the conversation-turn
serialization of `src/nodepragagent/memory.py`, the SQL tool
`query_postgres`, and the `SearchAgent.__init__` tool-spec construction.

External collaborators (the `json` module, pydantic validation, the
database engines, the model endpoint) are modelled as explicit
environments: `json.loads` becomes a `String → Option JsonValue`
parameter, each registered tool's pydantic schema becomes a `validate`
function, a callback becomes a function that either returns a payload or
raises (`Except`), and the model endpoint becomes a function from the
request index to the list of response choices.
-/

namespace NoDepRAGAgent

/-- JSON values, the structured data produced by `json.loads` and consumed
by `json.dumps`.  Numbers are modelled as integers, which covers every
payload the embedded code constructs. -/
inductive JsonValue where
  | null : JsonValue
  | bool (b : Bool) : JsonValue
  | num (n : Int) : JsonValue
  | str (s : String) : JsonValue
  | arr (xs : List JsonValue) : JsonValue
  | obj (fields : List (String × JsonValue)) : JsonValue

/-- Escaping applied by `json.dumps` to the characters that occur in the
embedded payloads (backslash, quote and common control characters). -/
def escapeJson (s : String) : String :=
  String.mk
    (s.data.flatMap fun c =>
      if c = '\\' then ['\\', '\\']
      else if c = '\"' then ['\\', '\"']
      else if c = '\n' then ['\\', 'n']
      else if c = '\t' then ['\\', 't']
      else if c = '\r' then ['\\', 'r']
      else [c])

mutual

/-- Serialization of a JSON value with `json.dumps` default separators,
as used by `ToolMessage.as_message_param` and `LLMError.as_json`. -/
def JsonValue.render : JsonValue → String
  | JsonValue.null => "null"
  | JsonValue.bool b => if b then "true" else "false"
  | JsonValue.num n => toString n
  | JsonValue.str s => "\"" ++ escapeJson s ++ "\""
  | JsonValue.arr xs => "[" ++ renderElems xs ++ "]"
  | JsonValue.obj fs => "\x7b" ++ renderFields fs ++ "\x7d"

/-- Comma-separated rendering of array elements. -/
def renderElems : List JsonValue → String
  | [] => ""
  | [v] => JsonValue.render v
  | v :: rest => JsonValue.render v ++ ", " ++ renderElems rest

/-- Comma-separated rendering of object fields. -/
def renderFields : List (String × JsonValue) → String
  | [] => ""
  | [(k, v)] => "\"" ++ escapeJson k ++ "\": " ++ JsonValue.render v
  | (k, v) :: rest =>
      "\"" ++ escapeJson k ++ "\": " ++ JsonValue.render v ++ ", " ++ renderFields rest

end

/-- The `LLMError` payload of `src/nodepragagent/errors.py`: a `type`
field fixed to `"error"`, a reason, a message, and optional details. -/
structure LLMError where
  reason : String
  message : String
  details : Option JsonValue := none

/-- `LLMError.as_dict`: `model_dump(exclude_none=True)` — the fields in
declaration order (`type`, `reason`, `message`, `details`), dropping
`details` when it is `None`. -/
def LLMError.as_dict (e : LLMError) : JsonValue :=
  JsonValue.obj
    ([("type", JsonValue.str "error"),
      ("reason", JsonValue.str e.reason),
      ("message", JsonValue.str e.message)] ++
      (match e.details with
       | some d => [("details", d)]
       | none => []))

/-- `LLMError.as_json`: the payload encoded as JSON. -/
def LLMError.as_json (e : LLMError) : String :=
  (e.as_dict).render

/-- One conversation turn, as serialized into `self.history` by
`system_message` / `user_message` / `assistant_message`,
`ToolCall.as_message_param` and `ToolMessage.as_message_param` of
`src/nodepragagent/memory.py`.  A `toolResult` turn stores the already
serialized content string. -/
inductive Turn where
  | system (content : String) : Turn
  | user (content : String) : Turn
  | assistant (content : String) : Turn
  | toolCall (id name arguments : String) : Turn
  | toolResult (tool_call_id : String) (content : String) : Turn
deriving DecidableEq, Repr

/-- The `.get("content")` lookup on a serialized message: every turn
carries a content string except the assistant turn holding `tool_calls`,
whose message param has no `content` key. -/
def turnContent : Turn → Option String
  | Turn.system s => some s
  | Turn.user s => some s
  | Turn.assistant s => some s
  | Turn.toolCall _ _ _ => none
  | Turn.toolResult _ s => some s

/-- One tool invocation inside a model response
(`ChatCompletionMessageFunctionToolCall`): the call id, the function name
and the raw argument text (`function.arguments`; an absent value is the
empty string). -/
structure ToolCallMsg where
  id : String
  name : String
  arguments : String
deriving DecidableEq, Repr

/-- One response choice: optional text content and the list of tool
invocations (an absent list is the empty list). -/
structure Choice where
  content : Option String
  tool_calls : List ToolCallMsg
deriving DecidableEq, Repr

/-- Python truthiness of `msg.content`: a present, non-empty string. -/
def contentTruthy (c : Choice) : Bool :=
  !(c.content.getD "").isEmpty

/-- A registered tool as the loop sees it: the pydantic argument model
(`validate` returns either `exc.errors()` details or the validated
arguments via `model_dump(exclude_none=True)`) and the callback, which
either returns a payload or raises an exception (`Except.error`). -/
structure LoopTool where
  validate : List (String × JsonValue) → Except JsonValue (List (String × JsonValue))
  callback : List (String × JsonValue) → Except String JsonValue

/-- The external environment of the loop: the three registered tools of
`tools.py` and the `json.loads` parser. -/
structure ToolsEnv where
  query_postgres : LoopTool
  query_weaviate : LoopTool
  request_user_input : LoopTool
  jsonLoads : String → Option JsonValue

/-- `FINAL_ANSWER_TOOL_NAME` of `tools.py`. -/
def FINAL_ANSWER_TOOL_NAME : String := "final_answer"

/-- The `TOOLS` registry of `tools.py`: a dict over `ALL_TOOLS`, which
contains exactly `QUERY_POSTGRES_TOOL`, `QUERY_WEAVIATE_TOOL` and
`REQUEST_USER_INPUT_TOOL` — the final-answer tool is not among them, so
`TOOLS.get` on any other name (including `"final_answer"`) is `None`. -/
def TOOLS (env : ToolsEnv) (name : String) : Option LoopTool :=
  if name = "query_postgres" then some env.query_postgres
  else if name = "query_weaviate" then some env.query_weaviate
  else if name = "request_user_input" then some env.request_user_input
  else none

/-- The record kept in `self.tool_call_records`
(`ToolCall.from_openai_tool_call`): name, raw arguments, id. -/
structure ToolCallRecord where
  name : String
  arguments : String
  id : String
deriving DecidableEq, Repr

/-- The mutable state of a `SearchAgent` run: the conversation history,
the collected tool-call records, the terminal flag, and an
instrumentation log of the tool names whose callback the executor
actually ran (observing `run(tool.callback, ...)` calls). -/
structure AgentState where
  history : List Turn
  tool_call_records : List ToolCallRecord
  is_final_answer : Bool
  invocations : List String
deriving DecidableEq, Repr

/-- Outcome of dispatching one tool call (lines 139–182 of `vllm.py`):
the response (or the exception the callback raised), plus whether the
executor invoked the callback. -/
structure CallResult where
  response : Except String JsonValue
  invoked : Bool

/-- The error built for an unregistered tool name (`vllm.py` 160–164). -/
def unknown_tool_error (name : String) : LLMError :=
  { reason := "unknown_tool",
    message := "Unknown tool: " ++ name,
    details := some (JsonValue.obj [("tool_name", JsonValue.str name)]) }

/-- The error built for non-object arguments (`vllm.py` 166–169). -/
def invalid_arguments_error : LLMError :=
  { reason := "invalid_arguments",
    message := "Tool arguments must be a JSON object." }

/-- The error built on pydantic validation failure (`vllm.py` 174–178). -/
def invalid_tool_arguments_error (details : JsonValue) : LLMError :=
  { reason := "invalid_tool_arguments",
    message := "Invalid tool arguments.",
    details := some details }

/-- Dispatch of a single tool call, following `handle_tools`: the name
is looked up in `TOOLS` (an unknown tool ends dispatch first); then the
raw argument text — the empty string is normalized to `"\x7b\x7d"` — must
have parsed to a JSON object (a parse failure leaves the raw string,
which like any non-object yields `invalid_arguments`); then the pydantic
model validates; only then does the executor (`run`, which applies no
exception handling of its own) run the callback. -/
def tool_response (env : ToolsEnv) (tc : ToolCallMsg) : CallResult :=
  match TOOLS env tc.name with
  | none =>
      { response := Except.ok (unknown_tool_error tc.name).as_dict, invoked := false }
  | some tool =>
      match env.jsonLoads (if tc.arguments = "" then "\x7b\x7d" else tc.arguments) with
      | some (JsonValue.obj fields) =>
          (match tool.validate fields with
           | Except.error details =>
               { response := Except.ok (invalid_tool_arguments_error details).as_dict,
                 invoked := false }
           | Except.ok validated =>
               { response := tool.callback validated, invoked := true })
      | _ =>
          { response := Except.ok invalid_arguments_error.as_dict, invoked := false }

/-- `SearchAgent.handle_tools`: for each call in order, append the
ToolCall turn and record, dispatch, append the ToolResult turn with the
serialized response, and set the terminal flag when the call names the
final-answer tool.  An exception raised by a callback propagates (second
component `some exn`), leaving the partially mutated state. -/
def handle_tools (env : ToolsEnv) : AgentState → List ToolCallMsg → AgentState × Option String
  | st, [] => (st, none)
  | st, tc :: rest =>
      let st1 : AgentState :=
        { st with
            history := st.history ++ [Turn.toolCall tc.id tc.name tc.arguments],
            tool_call_records := st.tool_call_records ++ [⟨tc.name, tc.arguments, tc.id⟩] }
      let cr := tool_response env tc
      let st2 : AgentState :=
        if cr.invoked then { st1 with invocations := st1.invocations ++ [tc.name] } else st1
      match cr.response with
      | Except.error exn => (st2, some exn)
      | Except.ok payload =>
          let st3 : AgentState :=
            { st2 with history := st2.history ++ [Turn.toolResult tc.id payload.render] }
          let st4 : AgentState :=
            if tc.name = FINAL_ANSWER_TOOL_NAME then { st3 with is_final_answer := true } else st3
          handle_tools env st4 rest

/-- The per-choice processing of `generate_from_messages` (lines
105–115): truthy text content appends an assistant turn, otherwise a
non-empty tool-call list is handed to `handle_tools` — the two branches
are an `if` / `elif`, so a choice with truthy content never has its tool
calls processed. -/
def process_choices (env : ToolsEnv) : AgentState → List Choice → AgentState × Option String
  | st, [] => (st, none)
  | st, c :: rest =>
      if contentTruthy c then
        process_choices env
          { st with history := st.history ++ [Turn.assistant (c.content.getD "")] } rest
      else if c.tool_calls.isEmpty then
        process_choices env st rest
      else
        match handle_tools env st c.tool_calls with
        | (st2, none) => process_choices env st2 rest
        | (st2, some exn) => (st2, some exn)

/-- `MAX_ITERATIONS` of `vllm.py`. -/
def MAX_ITERATIONS : Nat := 10

/-- The error built by `_build_failure_error`. -/
def maxIterationsError : LLMError :=
  { reason := "max_iterations_reached",
    message := "LLM cannot find the answer to the user question." }

/-- The outcome of one `generate_from_messages` run: the returned payload
or the propagated exception, the final agent state, and the history
snapshot taken at each issued model request. -/
structure RunResult where
  result : Except String String
  state : AgentState
  requestHistories : List (List Turn)

/-- Number of model requests the run issued. -/
def RunResult.requests (r : RunResult) : Nat :=
  r.requestHistories.length

/-- The `while it < MAX_ITERATIONS` loop of `generate_from_messages`,
by remaining iterations.  Each iteration issues one model request
(recording the history sent), processes the choices, and on the terminal
flag returns `self.history[-1].get("content")` (raising the line-124
assertion if that is absent).  When the budget is exhausted it appends
an assistant turn with the failure message and returns the
`max_iterations_reached` error as JSON. -/
def loop_from (env : ToolsEnv) (model : Nat → List Choice) :
    AgentState → Nat → List (List Turn) → Nat → RunResult
  | st, _, hists, 0 =>
      { result := Except.ok maxIterationsError.as_json,
        state := { st with history := st.history ++ [Turn.assistant maxIterationsError.message] },
        requestHistories := hists }
  | st, reqIdx, hists, fuel + 1 =>
      let hists2 := hists ++ [st.history]
      match process_choices env st (model reqIdx) with
      | (st2, some exn) =>
          { result := Except.error exn, state := st2, requestHistories := hists2 }
      | (st2, none) =>
          if st2.is_final_answer then
            match st2.history.getLast?.bind turnContent with
            | some s => { result := Except.ok s, state := st2, requestHistories := hists2 }
            | none =>
                { result := Except.error "AssertionError", state := st2,
                  requestHistories := hists2 }
          else
            loop_from env model st2 (reqIdx + 1) hists2 fuel

/-- `SearchAgent.generate_from_messages`: reset the terminal flag, append
the user message to the seed history, and run the bounded loop. -/
def generate_from_messages (env : ToolsEnv) (model : Nat → List Choice)
    (seedHistory : List Turn) (message : String) : RunResult :=
  loop_from env model
    { history := seedHistory ++ [Turn.user message],
      tool_call_records := [], is_final_answer := false, invocations := [] }
    0 [] MAX_ITERATIONS

/-! ### The SQL tool `query_postgres` (`tools.py` lines 179–243) -/

/-- What executing a statement against the database can yield: a
row-returning result (the underlying row stream), a non-row-returning
result with its `rowcount`, a raised `SQLAlchemyError`, or any other
raised exception. -/
inductive PgExec where
  | rowsRes (rs : List (List (String × JsonValue))) : PgExec
  | noRowsRes (rowcount : Int) : PgExec
  | raiseSqlAlchemy (msg : String) : PgExec
  | raiseOther (msg : String) : PgExec

/-- The database environment of `query_postgres`: engine creation either
succeeds or raises, and executing a (stripped) statement yields a
`PgExec` outcome. -/
structure PgEnv where
  engine : Except String Unit
  exec : String → PgExec

/-- A character Python's `str.strip()` removes. -/
def pyWhitespace (c : Char) : Bool :=
  c = ' ' || c = '\t' || c = '\n' || c = '\r' || c = '\x0b' || c = '\x0c'

/-- Python's `str.strip()`: drop leading and trailing whitespace. -/
def pyStrip (s : String) : String :=
  String.mk (((s.data.dropWhile pyWhitespace).reverse.dropWhile pyWhitespace).reverse)

/-- `QueryPostgresResult` of `tools.py`, with pydantic defaults. -/
structure QueryPostgresResult where
  rows : List (List (String × JsonValue)) := []
  rowcount : Option Int := none
  truncated : Option Bool := none
  error : Option LLMError := none

/-- `query_postgres`: strip the statement and reject an empty one as
`invalid_sql` before touching the database; clamp the limit with
`max(1, min(limit, 200))`; report engine-creation failure as
`engine_initialization_failed`; return `rowcount` for non-row-returning
statements; otherwise collect rows until the clamped limit, setting
`truncated` only when a further row existed; raised `SQLAlchemyError`
becomes `sql_error` and any other exception `unexpected_error`. -/
def query_postgres (env : PgEnv) (sql : String) (limit : Int) : QueryPostgresResult :=
  let sql := pyStrip sql
  if sql = "" then
    { rows := [],
      error := some { reason := "invalid_sql", message := "SQL statement must not be empty." } }
  else
    let capped_limit : Int := max 1 (min limit 200)
    match env.engine with
    | Except.error msg =>
        { rows := [],
          error := some { reason := "engine_initialization_failed", message := msg } }
    | Except.ok _ =>
        match env.exec sql with
        | PgExec.noRowsRes rc => { rows := [], rowcount := some rc }
        | PgExec.rowsRes rs =>
            let rows := rs.take capped_limit.toNat
            let truncated := decide (capped_limit.toNat < rs.length)
            { rows := rows, truncated := if truncated then some true else none }
        | PgExec.raiseSqlAlchemy m =>
            { rows := [], error := some { reason := "sql_error", message := m } }
        | PgExec.raiseOther m =>
            { rows := [], error := some { reason := "unexpected_error", message := m } }

/-! ### `SearchAgent.__init__` tool-spec construction (`vllm.py` lines 70–72)

Python list mutation is modelled with an explicit store of lists indexed
by address: tool params are identified by their function name
(`get_tool_name`).  `list(tools) if tools else []` allocates a fresh list
holding a copy of the caller's elements, and the conditional
`self.tool_spec.append(...)` mutates only that fresh address. -/

/-- `SearchAgent.__init__` acting on the store: `tools` is the address of
the caller-supplied sequence.  Returns the updated store and the address
of the agent's own `tool_spec` list. -/
def init_tool_spec (store : List (List String)) (tools : Nat) :
    List (List String) × Nat :=
  let caller := store.getD tools []
  let spec := caller
  let addr := store.length
  let store1 := store ++ [spec]
  if caller.any (fun n => decide (n = FINAL_ANSWER_TOOL_NAME)) then
    (store1, addr)
  else
    (store1.set addr (spec ++ [FINAL_ANSWER_TOOL_NAME]), addr)

/-! ### Histories with well-paired tool turns -/

/-- A history is well paired when every ToolCall turn is immediately
followed by a ToolResult turn with the same call identifier, and
ToolResult turns appear nowhere else. -/
def goodB : List Turn → Bool
  | [] => true
  | Turn.system _ :: rest => goodB rest
  | Turn.user _ :: rest => goodB rest
  | Turn.assistant _ :: rest => goodB rest
  | Turn.toolCall i _ _ :: Turn.toolResult j _ :: rest => decide (i = j) && goodB rest
  | Turn.toolCall _ _ _ :: _ => false
  | Turn.toolResult _ _ :: _ => false

/-- The call identifiers of the ToolCall turns of a history, in order. -/
def toolCallIds : List Turn → List String
  | [] => []
  | Turn.toolCall i _ _ :: rest => i :: toolCallIds rest
  | _ :: rest => toolCallIds rest

/-- Whether a turn is a ToolResult turn answering call identifier `x`. -/
def isResultFor (x : String) : Turn → Bool
  | Turn.toolResult i _ => decide (i = x)
  | _ => false

/-- Number of ToolResult turns answering call identifier `x`. -/
def resultCount (x : String) (h : List Turn) : Nat :=
  h.countP (isResultFor x)

lemma goodB_append {l : List Turn} (hl : goodB l = true) :
    ∀ h, goodB h = true → goodB (h ++ l) = true := by
  intro h
  induction h using goodB.induct with
  | case1 => intro _; simpa using hl
  | case2 _ rest ih => simpa [goodB] using ih
  | case3 _ rest ih => simpa [goodB] using ih
  | case4 _ rest ih => simpa [goodB] using ih
  | case5 i _ _ j _ rest ih =>
      intro hg
      simp only [goodB, Bool.and_eq_true] at hg
      simp only [List.cons_append, goodB, Bool.and_eq_true]
      exact ⟨hg.1, ih hg.2⟩
  | case6 => simp [goodB]
  | case7 => simp [goodB]

lemma resultCount_eq_count (x : String) :
    ∀ h, goodB h = true → resultCount x h = (toolCallIds h).count x := by
  intro h
  induction h using goodB.induct with
  | case1 => simp [resultCount, toolCallIds]
  | case2 _ rest ih =>
      intro hg
      simp only [goodB] at hg
      simp [resultCount, toolCallIds, isResultFor, List.countP_cons] at ih ⊢
      exact ih hg
  | case3 _ rest ih =>
      intro hg
      simp only [goodB] at hg
      simp [resultCount, toolCallIds, isResultFor, List.countP_cons] at ih ⊢
      exact ih hg
  | case4 _ rest ih =>
      intro hg
      simp only [goodB] at hg
      simp [resultCount, toolCallIds, isResultFor, List.countP_cons] at ih ⊢
      exact ih hg
  | case5 i _ _ j _ rest ih =>
      intro hg
      simp only [goodB, Bool.and_eq_true, decide_eq_true_eq] at hg
      obtain ⟨hij, hg⟩ := hg
      subst hij
      simp only [resultCount, toolCallIds, List.countP_cons, isResultFor, List.count_cons]
      have := ih hg
      simp only [resultCount] at this
      rw [this]
      by_cases hx : i = x
      · subst hx; simp
      · simp [hx, Ne.symm hx]
  | case6 => simp [goodB]
  | case7 => simp [goodB]

lemma exactly_one_result (x n a : String) :
    ∀ h, goodB h = true → (toolCallIds h).Nodup →
      ∀ i, h.get? i = some (Turn.toolCall x n a) →
      resultCount x (h.drop (i + 1)) = 1 := by
  intro h
  induction h using goodB.induct with
  | case1 => intro _ _ i hi; simp at hi
  | case2 s rest ih =>
      intro hg hn i hi
      simp only [goodB] at hg
      simp only [toolCallIds] at hn
      cases i with
      | zero => simp at hi
      | succ k => exact ih hg hn k hi
  | case3 s rest ih =>
      intro hg hn i hi
      simp only [goodB] at hg
      simp only [toolCallIds] at hn
      cases i with
      | zero => simp at hi
      | succ k => exact ih hg hn k hi
  | case4 s rest ih =>
      intro hg hn i hi
      simp only [goodB] at hg
      simp only [toolCallIds] at hn
      cases i with
      | zero => simp at hi
      | succ k => exact ih hg hn k hi
  | case5 i0 n0 a0 j c rest ih =>
      intro hg hn i hi
      simp only [goodB, Bool.and_eq_true, decide_eq_true_eq] at hg
      obtain ⟨hij, hg⟩ := hg
      subst hij
      simp only [toolCallIds, List.nodup_cons] at hn
      obtain ⟨hni, hn⟩ := hn
      cases i with
      | zero =>
          simp only [List.get?_cons_zero, Option.some.injEq, Turn.toolCall.injEq] at hi
          obtain ⟨hx, _, _⟩ := hi
          subst hx
          have h0 : resultCount i0 rest = 0 := by
            rw [resultCount_eq_count i0 rest hg]
            exact List.count_eq_zero.mpr hni
          show resultCount i0 (Turn.toolResult i0 c :: rest) = 1
          simp only [resultCount, List.countP_cons] at h0 ⊢
          simp [isResultFor, h0]
      | succ k =>
          cases k with
          | zero => simp at hi
          | succ m => exact ih hg hn m hi
  | case6 => simp [goodB]
  | case7 => simp [goodB]

/-! ### Characterization of `handle_tools` -/

/-- The payload a dispatched call responds with, when it does not raise. -/
def okPayload (env : ToolsEnv) (tc : ToolCallMsg) : JsonValue :=
  match (tool_response env tc).response with
  | Except.ok p => p
  | Except.error _ => JsonValue.null

/-- The two turns `handle_tools` appends for one non-raising call. -/
def pairTurns (env : ToolsEnv) (tc : ToolCallMsg) : List Turn :=
  [Turn.toolCall tc.id tc.name tc.arguments,
   Turn.toolResult tc.id (okPayload env tc).render]

/-- Every call in the list dispatches without raising. -/
def callsOk (env : ToolsEnv) (tcs : List ToolCallMsg) : Prop :=
  ∀ tc ∈ tcs, ∃ p, (tool_response env tc).response = Except.ok p

/-- Every registered callback returns instead of raising. -/
def totalTools (env : ToolsEnv) : Prop :=
  (∀ a, ∃ p, env.query_postgres.callback a = Except.ok p) ∧
  (∀ a, ∃ p, env.query_weaviate.callback a = Except.ok p) ∧
  (∀ a, ∃ p, env.request_user_input.callback a = Except.ok p)

lemma TOOLS_cases {env : ToolsEnv} {name : String} {t : LoopTool}
    (h : TOOLS env name = some t) :
    t = env.query_postgres ∨ t = env.query_weaviate ∨ t = env.request_user_input := by
  unfold TOOLS at h
  split at h
  · exact Or.inl (Option.some.inj h).symm
  · split at h
    · exact Or.inr (Or.inl (Option.some.inj h).symm)
    · split at h
      · exact Or.inr (Or.inr (Option.some.inj h).symm)
      · exact absurd h (by simp)

lemma TOOLS_final_answer (env : ToolsEnv) : TOOLS env FINAL_ANSWER_TOOL_NAME = none := by
  simp [TOOLS, FINAL_ANSWER_TOOL_NAME]

lemma tool_response_ok {env : ToolsEnv} (htot : totalTools env) (tc : ToolCallMsg) :
    ∃ p, (tool_response env tc).response = Except.ok p := by
  obtain ⟨h1, h2, h3⟩ := htot
  unfold tool_response
  cases ht : TOOLS env tc.name with
  | none => exact ⟨_, rfl⟩
  | some tool =>
      cases hj : env.jsonLoads (if tc.arguments = "" then "\x7b\x7d" else tc.arguments) with
      | none => exact ⟨_, rfl⟩
      | some v =>
          cases v with
          | obj fields =>
              simp only
              cases hv : tool.validate fields with
              | error d => exact ⟨_, rfl⟩
              | ok va =>
                  simp only
                  rcases TOOLS_cases ht with h | h | h <;> subst h
                  · exact h1 va
                  · exact h2 va
                  · exact h3 va
          | null => exact ⟨_, rfl⟩
          | bool b => exact ⟨_, rfl⟩
          | num n => exact ⟨_, rfl⟩
          | str s => exact ⟨_, rfl⟩
          | arr xs => exact ⟨_, rfl⟩

lemma callsOk_of_total {env : ToolsEnv} (htot : totalTools env) (tcs : List ToolCallMsg) :
    callsOk env tcs :=
  fun tc _ => tool_response_ok htot tc

/-- Full characterization of `handle_tools` on a batch whose calls do not
raise: the batch appends, for each call in order, its ToolCall turn
followed by its ToolResult turn; records each call; sets the terminal
flag iff some call names the final-answer tool; and logs exactly the
callback invocations the dispatch reached. -/
lemma handle_tools_eq (env : ToolsEnv) :
    ∀ (tcs : List ToolCallMsg) (st : AgentState), callsOk env tcs →
      handle_tools env st tcs =
        ({ history := st.history ++ tcs.flatMap (pairTurns env),
           tool_call_records :=
             st.tool_call_records ++ tcs.map (fun tc => ⟨tc.name, tc.arguments, tc.id⟩),
           is_final_answer :=
             st.is_final_answer ||
               tcs.any (fun tc => decide (tc.name = FINAL_ANSWER_TOOL_NAME)),
           invocations :=
             st.invocations ++
               (tcs.filter (fun tc => (tool_response env tc).invoked)).map
                 (fun tc => tc.name) }, none) := by
  intro tcs
  induction tcs with
  | nil =>
      intro st _
      simp [handle_tools]
  | cons tc rest ih =>
      intro st hok
      obtain ⟨p, hp⟩ := hok tc (List.mem_cons_self tc rest)
      have hrest : callsOk env rest := fun tc2 h2 => hok tc2 (List.mem_cons_of_mem tc h2)
      have hpay : okPayload env tc = p := by
        simp [okPayload, hp]
      cases hinv : (tool_response env tc).invoked <;>
        by_cases hfa : tc.name = FINAL_ANSWER_TOOL_NAME <;>
          first
          | (simp only [handle_tools, hp, hinv, hfa]
             rw [ih _ hrest]
             simp [pairTurns, hpay, hfa, List.filter_cons, hinv, List.append_assoc])
lemma handle_tools_final_mono (env : ToolsEnv) :
    ∀ (tcs : List ToolCallMsg) (st : AgentState),
      (∀ tc ∈ tcs, tc.name ≠ FINAL_ANSWER_TOOL_NAME) →
      ((handle_tools env st tcs).1).is_final_answer = st.is_final_answer := by
  intro tcs
  induction tcs with
  | nil => intro st _; simp [handle_tools]
  | cons tc rest ih =>
      intro st hn
      have hfa : tc.name ≠ FINAL_ANSWER_TOOL_NAME := hn tc (List.mem_cons_self tc rest)
      have ihh := fun st2 => ih st2 (fun tc2 h2 => hn tc2 (List.mem_cons_of_mem tc h2))
      cases hinv : (tool_response env tc).invoked <;>
        cases hr : (tool_response env tc).response <;>
          simp [handle_tools, hr, hinv, hfa, ihh]

lemma process_choices_final (env : ToolsEnv) :
    ∀ (cs : List Choice) (st : AgentState),
      (∀ c ∈ cs, ∀ tc ∈ c.tool_calls, tc.name ≠ FINAL_ANSWER_TOOL_NAME) →
      ((process_choices env st cs).1).is_final_answer = st.is_final_answer := by
  intro cs
  induction cs with
  | nil => intro st _; simp [process_choices]
  | cons c rest ih =>
      intro st hn
      have hc := hn c (List.mem_cons_self c rest)
      have ihh := fun st2 => ih st2 (fun c2 h2 => hn c2 (List.mem_cons_of_mem c h2))
      by_cases htr : contentTruthy c
      · simp [process_choices, htr, ihh]
      · by_cases hemp : c.tool_calls.isEmpty
        · simp [process_choices, htr, hemp, ihh]
        · have hmono := handle_tools_final_mono env c.tool_calls st hc
          cases hht : handle_tools env st c.tool_calls with
          | mk st2 oe =>
              rw [hht] at hmono
              cases oe with
              | none =>
                  simp [process_choices, htr, hemp, hht, ihh]
                  exact hmono
              | some e =>
                  simp [process_choices, htr, hemp, hht]
                  exact hmono

lemma process_choices_none (env : ToolsEnv) (htot : totalTools env) :
    ∀ (cs : List Choice) (st : AgentState), (process_choices env st cs).2 = none := by
  intro cs
  induction cs with
  | nil => intro st; simp [process_choices]
  | cons c rest ih =>
      intro st
      by_cases htr : contentTruthy c
      · simp [process_choices, htr, ih]
      · by_cases hemp : c.tool_calls.isEmpty
        · simp [process_choices, htr, hemp, ih]
        · rw [process_choices]
          simp only [htr, hemp]
          rw [handle_tools_eq env c.tool_calls st (callsOk_of_total htot c.tool_calls)]
          simp [ih]

lemma process_choices_calls_only (env : ToolsEnv) (st : AgentState)
    (tcs : List ToolCallMsg) (h : tcs ≠ []) :
    process_choices env st [⟨none, tcs⟩] = handle_tools env st tcs := by
  have hie : tcs.isEmpty = false := by
    cases tcs
    · exact absurd rfl h
    · rfl
  have hct : contentTruthy ⟨none, tcs⟩ = false := rfl
  rw [process_choices]
  simp only [hct, hie, Bool.false_eq_true, if_false]
  cases hht : handle_tools env st tcs with
  | mk st2 oe =>
      cases oe <;> simp [process_choices]

lemma pairs_good (env : ToolsEnv) :
    ∀ tcs : List ToolCallMsg, goodB (tcs.flatMap (pairTurns env)) = true := by
  intro tcs
  induction tcs with
  | nil => simp [goodB]
  | cons tc rest ih => simpa [pairTurns, goodB] using ih

lemma process_choices_good (env : ToolsEnv) (htot : totalTools env) :
    ∀ (cs : List Choice) (st : AgentState), goodB st.history = true →
      goodB ((process_choices env st cs).1).history = true := by
  intro cs
  induction cs with
  | nil => intro st hg; simpa [process_choices] using hg
  | cons c rest ih =>
      intro st hg
      by_cases htr : contentTruthy c
      · have hg2 : goodB (st.history ++ [Turn.assistant (c.content.getD "")]) = true :=
          goodB_append (by simp [goodB]) _ hg
        simpa [process_choices, htr] using ih _ hg2
      · by_cases hemp : c.tool_calls.isEmpty
        · simpa [process_choices, htr, hemp] using ih _ hg
        · rw [process_choices]
          simp only [htr, hemp]
          rw [handle_tools_eq env c.tool_calls st (callsOk_of_total htot c.tool_calls)]
          simp only
          exact ih _ (goodB_append (pairs_good env c.tool_calls) _ hg)

lemma loop_requests_le (env : ToolsEnv) (model : Nat → List Choice) :
    ∀ (fuel : Nat) (st : AgentState) (reqIdx : Nat) (hists : List (List Turn)),
      (loop_from env model st reqIdx hists fuel).requestHistories.length ≤
        hists.length + fuel := by
  intro fuel
  induction fuel with
  | zero => intro st reqIdx hists; simp [loop_from]
  | succ fuel ih =>
      intro st reqIdx hists
      rw [loop_from]
      cases hp : process_choices env st (model reqIdx) with
      | mk st2 oe =>
          cases oe with
          | some e => simp
          | none =>
              by_cases hfin : st2.is_final_answer
              · cases hlast : st2.history.getLast?.bind turnContent <;>
                  · simp [hfin, hlast]
              · have := ih st2 (reqIdx + 1) (hists ++ [st.history])
                simp only [List.length_append, List.length_cons, List.length_nil] at this
                simp [hfin]
                omega

lemma loop_hists_prefix (env : ToolsEnv) (model : Nat → List Choice) :
    ∀ (fuel : Nat) (st : AgentState) (reqIdx : Nat) (hists : List (List Turn)),
      List.IsPrefix hists (loop_from env model st reqIdx hists fuel).requestHistories := by
  intro fuel
  induction fuel with
  | zero => intro st reqIdx hists; simp [loop_from]
  | succ fuel ih =>
      intro st reqIdx hists
      have hstep : List.IsPrefix hists (hists ++ [st.history]) := ⟨[st.history], rfl⟩
      rw [loop_from]
      cases hp : process_choices env st (model reqIdx) with
      | mk st2 oe =>
          cases oe with
          | some e => simpa using hstep
          | none =>
              by_cases hfin : st2.is_final_answer
              · cases hlast : st2.history.getLast?.bind turnContent <;>
                  · simpa [hfin, hlast] using hstep
              · simp only [hfin]
                exact hstep.trans (ih st2 (reqIdx + 1) (hists ++ [st.history]))

lemma loop_hists_prefix_succ (env : ToolsEnv) (model : Nat → List Choice)
    (st : AgentState) (reqIdx : Nat) (hists : List (List Turn)) (fuel : Nat) :
    List.IsPrefix (hists ++ [st.history])
      ((loop_from env model st reqIdx hists (fuel + 1)).requestHistories) := by
  rw [loop_from]
  cases hp : process_choices env st (model reqIdx) with
  | mk st2 oe =>
      cases oe with
      | some e => simp
      | none =>
          by_cases hfin : st2.is_final_answer
          · cases hlast : st2.history.getLast?.bind turnContent <;> simp [hfin, hlast]
          · simp only [hfin]
            exact loop_hists_prefix env model fuel st2 (reqIdx + 1) (hists ++ [st.history])

lemma loop_no_final (env : ToolsEnv) (model : Nat → List Choice)
    (hn : ∀ (i : Nat), ∀ c ∈ model i, ∀ tc ∈ c.tool_calls, tc.name ≠ FINAL_ANSWER_TOOL_NAME) :
    ∀ (fuel : Nat) (st : AgentState) (reqIdx : Nat) (hists : List (List Turn)),
      st.is_final_answer = false →
      ∀ s, (loop_from env model st reqIdx hists fuel).result = Except.ok s →
        s = maxIterationsError.as_json := by
  intro fuel
  induction fuel with
  | zero =>
      intro st reqIdx hists _ s hs
      simpa [loop_from] using hs.symm
  | succ fuel ih =>
      intro st reqIdx hists hfin s hs
      rw [loop_from] at hs
      cases hp : process_choices env st (model reqIdx) with
      | mk st2 oe =>
          rw [hp] at hs
          have hst2 : st2.is_final_answer = false := by
            have := process_choices_final env (model reqIdx) st (hn reqIdx)
            rw [hp] at this
            simpa [hfin] using this
          cases oe with
          | some e => simp at hs
          | none =>
              simp only [hst2, if_false, Bool.false_eq_true] at hs
              exact ih st2 (reqIdx + 1) (hists ++ [st.history]) hst2 s hs

lemma loop_cap (env : ToolsEnv) (model : Nat → List Choice) (htot : totalTools env)
    (hn : ∀ (i : Nat), ∀ c ∈ model i, ∀ tc ∈ c.tool_calls, tc.name ≠ FINAL_ANSWER_TOOL_NAME) :
    ∀ (fuel : Nat) (st : AgentState) (reqIdx : Nat) (hists : List (List Turn)),
      st.is_final_answer = false →
      (loop_from env model st reqIdx hists fuel).result =
        Except.ok maxIterationsError.as_json := by
  intro fuel
  induction fuel with
  | zero => intro st reqIdx hists _; simp [loop_from]
  | succ fuel ih =>
      intro st reqIdx hists hfin
      rw [loop_from]
      cases hp : process_choices env st (model reqIdx) with
      | mk st2 oe =>
          have hnone : oe = none := by
            have := process_choices_none env htot (model reqIdx) st
            rw [hp] at this
            exact this
          subst hnone
          have hst2 : st2.is_final_answer = false := by
            have := process_choices_final env (model reqIdx) st (hn reqIdx)
            rw [hp] at this
            simpa [hfin] using this
          simp only [hst2, if_false, Bool.false_eq_true]
          exact ih st2 (reqIdx + 1) (hists ++ [st.history]) hst2

lemma loop_good (env : ToolsEnv) (model : Nat → List Choice) (htot : totalTools env) :
    ∀ (fuel : Nat) (st : AgentState) (reqIdx : Nat) (hists : List (List Turn)),
      goodB st.history = true → (∀ h ∈ hists, goodB h = true) →
      (∀ h ∈ (loop_from env model st reqIdx hists fuel).requestHistories, goodB h = true) ∧
      goodB ((loop_from env model st reqIdx hists fuel).state.history) = true := by
  intro fuel
  induction fuel with
  | zero =>
      intro st reqIdx hists hg hh
      refine ⟨by simpa [loop_from] using hh, ?_⟩
      simpa [loop_from] using goodB_append (by simp [goodB]) _ hg
  | succ fuel ih =>
      intro st reqIdx hists hg hh
      have hh2 : ∀ h ∈ hists ++ [st.history], goodB h = true := by
        intro h hmem
        rcases List.mem_append.mp hmem with hmem | hmem
        · exact hh h hmem
        · simp only [List.mem_singleton] at hmem
          subst hmem
          exact hg
      rw [loop_from]
      cases hp : process_choices env st (model reqIdx) with
      | mk st2 oe =>
          have hnone : oe = none := by
            have := process_choices_none env htot (model reqIdx) st
            rw [hp] at this
            exact this
          subst hnone
          have hg2 : goodB st2.history = true := by
            have := process_choices_good env htot (model reqIdx) st hg
            rw [hp] at this
            exact this
          by_cases hfin : st2.is_final_answer
          · cases hlast : st2.history.getLast?.bind turnContent <;>
              · exact ⟨by simpa [hfin, hlast] using hh2, by simpa [hfin, hlast] using hg2⟩
          · simp only [hfin]
            exact ih st2 (reqIdx + 1) (hists ++ [st.history]) hg2 hh2

/-! ### Concrete fixtures used by the claim theorems and witnesses -/

/-- A registered tool whose pydantic model accepts any object and whose
callback returns `null` without raising. -/
def okTool : LoopTool :=
  { validate := fun fields => Except.ok fields,
    callback := fun _ => Except.ok JsonValue.null }

/-- `json.loads` restricted to the argument strings the concrete runs
use: the normalized empty object parses, everything else fails. -/
def smallJson : String → Option JsonValue := fun s =>
  if s = "\x7b\x7d" then some (JsonValue.obj []) else none

/-- A benign environment: three total tools and the small parser. -/
def wEnvOk : ToolsEnv :=
  { query_postgres := okTool, query_weaviate := okTool,
    request_user_input := okTool, jsonLoads := smallJson }

lemma wEnvOk_total : totalTools wEnvOk :=
  ⟨fun _ => ⟨JsonValue.null, rfl⟩, fun _ => ⟨JsonValue.null, rfl⟩,
   fun _ => ⟨JsonValue.null, rfl⟩⟩

/-- A model that only ever produces free text. -/
def wModelText : Nat → List Choice := fun _ => [⟨some "still thinking", []⟩]

lemma wModelText_no_final :
    ∀ (i : Nat), ∀ c ∈ wModelText i, ∀ tc ∈ c.tool_calls,
      tc.name ≠ FINAL_ANSWER_TOOL_NAME := by
  intro i c hc tc htc
  simp [wModelText] at hc
  subst hc
  simp at htc

/-! ### C5 -/

/-- C5: for any sequence of model responses in which the terminal tool is
never invoked (and whose registered callbacks return rather than raise),
`generate_from_messages` issues no more than `MAX_ITERATIONS = 10` model
requests and returns the `max_iterations_reached` Structured Error as its
result instead of raising an exception. -/
theorem C5_iteration_cap (env : ToolsEnv) (model : Nat → List Choice)
    (seed : List Turn) (msg : String) (htot : totalTools env)
    (hn : ∀ (i : Nat), ∀ c ∈ model i, ∀ tc ∈ c.tool_calls,
      tc.name ≠ FINAL_ANSWER_TOOL_NAME) :
    MAX_ITERATIONS = 10 ∧
    maxIterationsError.reason = "max_iterations_reached" ∧
    (generate_from_messages env model seed msg).result =
      Except.ok maxIterationsError.as_json ∧
    (generate_from_messages env model seed msg).requests ≤ MAX_ITERATIONS := by
  refine ⟨rfl, rfl, ?_, ?_⟩
  · exact loop_cap env model htot hn MAX_ITERATIONS _ 0 [] rfl
  · simpa [RunResult.requests] using
      loop_requests_le env model MAX_ITERATIONS
        { history := seed ++ [Turn.user msg], tool_call_records := [],
          is_final_answer := false, invocations := [] } 0 []

/-- Witness for C5 at a concrete benign environment and text-only model. -/
theorem C5_iteration_cap_witness :
    totalTools wEnvOk ∧
    (generate_from_messages wEnvOk wModelText [Turn.system "s"] "q").result =
      Except.ok maxIterationsError.as_json ∧
    (generate_from_messages wEnvOk wModelText [Turn.system "s"] "q").requests ≤
      MAX_ITERATIONS := by
  have h := C5_iteration_cap wEnvOk wModelText [Turn.system "s"] "q"
    wEnvOk_total wModelText_no_final
  exact ⟨wEnvOk_total, h.2.2.1, h.2.2.2⟩

/-! ### C8 -/

/-- C8: the loop never returns a final answer in an iteration whose
responses did not invoke the terminal tool — a choice carrying only text
content appends an Assistant turn and processing continues, and when no
response ever names the terminal tool the only value the run can return
is the `max_iterations_reached` error payload. -/
theorem C8_text_does_not_terminate (env : ToolsEnv) (model : Nat → List Choice)
    (seed : List Turn) (msg : String)
    (hn : ∀ (i : Nat), ∀ c ∈ model i, ∀ tc ∈ c.tool_calls,
      tc.name ≠ FINAL_ANSWER_TOOL_NAME) :
    (∀ (st : AgentState) (c : Choice) (s : String), c.content = some s → s ≠ "" →
        process_choices env st [c] =
          ({ st with history := st.history ++ [Turn.assistant s] }, none)) ∧
    (∀ s, (generate_from_messages env model seed msg).result = Except.ok s →
      s = maxIterationsError.as_json) := by
  constructor
  · intro st c s hc hs
    have hse : s.isEmpty = false := by
      cases he : s.isEmpty
      · rfl
      · exact absurd ((String.isEmpty_iff s).mp he) hs
    have htr : contentTruthy c = true := by
      simp [contentTruthy, hc, hse]
    simp [process_choices, htr, hc]
  · intro s hs
    exact loop_no_final env model hn MAX_ITERATIONS _ 0 [] rfl s hs

/-- Witness for C8: a text-only choice appends an Assistant turn, and the
concrete text-only run returns only the cap error. -/
theorem C8_text_does_not_terminate_witness :
    process_choices wEnvOk
        { history := [], tool_call_records := [], is_final_answer := false,
          invocations := [] }
        [⟨some "free text", []⟩] =
      ({ history := [Turn.assistant "free text"], tool_call_records := [],
         is_final_answer := false, invocations := [] }, none) ∧
    maxIterationsError.as_json = maxIterationsError.as_json := by
  have h := C8_text_does_not_terminate wEnvOk wModelText [Turn.system "s"] "q8"
    wModelText_no_final
  refine ⟨?_, h.2 maxIterationsError.as_json rfl⟩
  have h1 := h.1
    { history := [], tool_call_records := [], is_final_answer := false, invocations := [] }
    ⟨some "free text", []⟩ "free text" rfl (by decide)
  simpa using h1

/-! ### C6 -/

/-- C6: in every history an orchestration run sends to the model (and in
its final history), every ToolCall turn with identifier X — the
identifiers being pairwise distinct — is answered by exactly one
subsequent ToolResult turn with `tool_call_id` X, assuming the registered
callbacks return rather than raise. -/
theorem C6_correlation_invariant (env : ToolsEnv) (model : Nat → List Choice)
    (seed : List Turn) (msg : String) (htot : totalTools env)
    (hseed : goodB seed = true) :
    ∀ hh, (hh ∈ (generate_from_messages env model seed msg).requestHistories ∨
           hh = (generate_from_messages env model seed msg).state.history) →
      (toolCallIds hh).Nodup →
      ∀ (i : Nat) (x n a : String), hh.get? i = some (Turn.toolCall x n a) →
        resultCount x (hh.drop (i + 1)) = 1 := by
  intro hh hmem hnd i x n a hi
  have hg0 : goodB (seed ++ [Turn.user msg]) = true :=
    goodB_append (by simp [goodB]) _ hseed
  have hrun := loop_good env model htot MAX_ITERATIONS
    { history := seed ++ [Turn.user msg], tool_call_records := [],
      is_final_answer := false, invocations := [] } 0 [] hg0 (by simp)
  have hgh : goodB hh = true := by
    rcases hmem with hmem | hmem
    · exact hrun.1 hh hmem
    · rw [hmem]
      exact hrun.2
  exact exactly_one_result x n a hh hgh hnd i hi

/-- A model issuing one registered tool call first, then only text. -/
def wModelOneCall : Nat → List Choice := fun i =>
  if i = 0 then [⟨none, [⟨"id1", "query_postgres", ""⟩]⟩]
  else [⟨some "more", []⟩]

/-- The history sent at the second model request of the `wModelOneCall`
run: the seeded turns followed by the correlated ToolCall/ToolResult
pair. -/
def wHH6 : List Turn :=
  [Turn.system "s", Turn.user "q6", Turn.toolCall "id1" "query_postgres" "",
   Turn.toolResult "id1" "null"]

/-- Witness for C6 at the concrete one-call run. -/
theorem C6_correlation_invariant_witness :
    totalTools wEnvOk ∧ goodB [Turn.system "s"] = true ∧
    (toolCallIds wHH6).Nodup ∧
    resultCount "id1" (wHH6.drop 3) = 1 := by
  refine ⟨wEnvOk_total, by decide, by decide, ?_⟩
  exact C6_correlation_invariant wEnvOk wModelOneCall [Turn.system "s"] "q6"
    wEnvOk_total (by decide) wHH6 (Or.inl (by decide)) (by decide)
    2 "id1" "query_postgres" "" (by decide)

/-! ### C2 -/

/-- A choice carrying both text content and a tool invocation. -/
def cChoice2 : Choice :=
  ⟨some "thinking out loud", [⟨"c2-1", "query_postgres", "\x7b\x7d"⟩]⟩

/-- A seeded agent state used by the concrete choice-processing runs. -/
def cStSys : AgentState :=
  { history := [Turn.system "sys"], tool_call_records := [],
    is_final_answer := false, invocations := [] }

/-- C2 counterexample: a model response choice that carries a tool
invocation together with text content has only the text appended — no
ToolCall turn, no ToolResult turn, no record and no callback invocation —
because tool calls sit in the `elif` branch under the content check. -/
theorem C2_counterexample :
    process_choices wEnvOk cStSys [cChoice2] =
      ({ history := [Turn.system "sys", Turn.assistant "thinking out loud"],
         tool_call_records := [], is_final_answer := false, invocations := [] }, none) ∧
    toolCallIds (process_choices wEnvOk cStSys [cChoice2]).1.history = [] ∧
    resultCount "c2-1" (process_choices wEnvOk cStSys [cChoice2]).1.history = 0 :=
  ⟨rfl, rfl, rfl⟩

/-- C2 amended: for every model response choice that carries tool
invocations and no truthy text content, the loop processes each
invocation in the order received — appending its ToolCall turn,
validating, executing on success, and appending its ToolResult turn —
whereas a choice that also carries non-empty text content has only the
text processed and its tool invocations are skipped. -/
theorem C2_tool_calls_in_order (env : ToolsEnv) (st : AgentState) (c : Choice)
    (hcontent : contentTruthy c = false) (hok : callsOk env c.tool_calls) :
    process_choices env st [c] =
      ({ history := st.history ++ c.tool_calls.flatMap (pairTurns env),
         tool_call_records :=
           st.tool_call_records ++ c.tool_calls.map (fun tc => ⟨tc.name, tc.arguments, tc.id⟩),
         is_final_answer :=
           st.is_final_answer ||
             c.tool_calls.any (fun tc => decide (tc.name = FINAL_ANSWER_TOOL_NAME)),
         invocations :=
           st.invocations ++
             (c.tool_calls.filter (fun tc => (tool_response env tc).invoked)).map
               (fun tc => tc.name) }, none) := by
  by_cases hemp : c.tool_calls.isEmpty
  · have he : c.tool_calls = [] := by
      cases hcc : c.tool_calls
      · rfl
      · rw [hcc] at hemp; simp at hemp
    cases st
    simp [process_choices, hcontent, hemp, he]
  · rw [process_choices]
    simp only [hcontent, Bool.false_eq_true, if_false, hemp]
    rw [handle_tools_eq env c.tool_calls st hok]
    simp [process_choices]

/-- Witness for C2 amended: a content-free choice with one registered
call appends exactly its ToolCall/ToolResult pair. -/
theorem C2_tool_calls_in_order_witness :
    contentTruthy ⟨none, [⟨"w2-1", "query_postgres", "\x7b\x7d"⟩]⟩ = false ∧
    process_choices wEnvOk cStSys [⟨none, [⟨"w2-1", "query_postgres", "\x7b\x7d"⟩]⟩] =
      ({ history := [Turn.system "sys", Turn.toolCall "w2-1" "query_postgres" "\x7b\x7d",
                     Turn.toolResult "w2-1" "null"],
         tool_call_records := [⟨"query_postgres", "\x7b\x7d", "w2-1"⟩],
         is_final_answer := false, invocations := ["query_postgres"] }, none) := by
  have hok : callsOk wEnvOk [⟨"w2-1", "query_postgres", "\x7b\x7d"⟩] := by
    intro tc htc
    simp at htc
    subst htc
    exact ⟨JsonValue.null, rfl⟩
  have h := C2_tool_calls_in_order wEnvOk cStSys
    ⟨none, [⟨"w2-1", "query_postgres", "\x7b\x7d"⟩]⟩ rfl hok
  exact ⟨rfl, h⟩

/-! ### C3 -/

/-- A tool whose callback raises: its pydantic model accepts any object,
and running the callback raises the exception message `"boom"`. -/
def boomTool : LoopTool :=
  { validate := fun fields => Except.ok fields,
    callback := fun _ => Except.error "boom" }

/-- An environment whose SQL tool raises when executed. -/
def cEnv3 : ToolsEnv :=
  { query_postgres := boomTool, query_weaviate := okTool,
    request_user_input := okTool, jsonLoads := smallJson }

/-- A model that always invokes the raising tool. -/
def cModel3 : Nat → List Choice := fun _ =>
  [⟨none, [⟨"c3-1", "query_postgres", ""⟩]⟩]

/-- C3 counterexample: when a tool callback raises, the exception is not
caught and converted into a ToolResult error — it propagates out of
`generate_from_messages`, and the run ends with the ToolCall turn
dangling, with no ToolResult appended for it. -/
theorem C3_counterexample :
    (generate_from_messages cEnv3 cModel3 [Turn.system "sys"] "q3").result =
      Except.error "boom" ∧
    (generate_from_messages cEnv3 cModel3 [Turn.system "sys"] "q3").state.history =
      [Turn.system "sys", Turn.user "q3", Turn.toolCall "c3-1" "query_postgres" ""] ∧
    resultCount "c3-1"
      (generate_from_messages cEnv3 cModel3 [Turn.system "sys"] "q3").state.history = 0 :=
  ⟨rfl, rfl, rfl⟩

/-- C3 amended: the registered tools catch their own failures internally
and return Structured Errors, but the executor applies no exception
handling — when a callback does raise, `handle_tools` stops after the
ToolCall turn (appending no ToolResult) and the exception propagates out
of `generate_from_messages`. -/
theorem C3_callback_exception_propagates (env : ToolsEnv) (st : AgentState)
    (tc : ToolCallMsg) (t : LoopTool) (fields va : List (String × JsonValue))
    (e : String) (rest : List ToolCallMsg) (model : Nat → List Choice)
    (seed : List Turn) (msg : String)
    (h1 : TOOLS env tc.name = some t)
    (h2 : env.jsonLoads (if tc.arguments = "" then "\x7b\x7d" else tc.arguments) =
      some (JsonValue.obj fields))
    (h3 : t.validate fields = Except.ok va)
    (h4 : t.callback va = Except.error e)
    (h5 : model 0 = [⟨none, tc :: rest⟩]) :
    handle_tools env st (tc :: rest) =
      ({ st with
          history := st.history ++ [Turn.toolCall tc.id tc.name tc.arguments],
          tool_call_records := st.tool_call_records ++ [⟨tc.name, tc.arguments, tc.id⟩],
          invocations := st.invocations ++ [tc.name] }, some e) ∧
    (generate_from_messages env model seed msg).result = Except.error e := by
  have hresp : tool_response env tc = ⟨Except.error e, true⟩ := by
    simp [tool_response, h1, h2, h3, h4]
  have hstep : ∀ s : AgentState,
      handle_tools env s (tc :: rest) =
        ({ s with
            history := s.history ++ [Turn.toolCall tc.id tc.name tc.arguments],
            tool_call_records := s.tool_call_records ++ [⟨tc.name, tc.arguments, tc.id⟩],
            invocations := s.invocations ++ [tc.name] }, some e) := by
    intro s
    simp [handle_tools, hresp]
  refine ⟨hstep st, ?_⟩
  show (loop_from env model
    { history := seed ++ [Turn.user msg], tool_call_records := [],
      is_final_answer := false, invocations := [] } 0 [] (9 + 1)).result = Except.error e
  rw [loop_from, h5, process_choices_calls_only env _ (tc :: rest) (by simp),
    hstep _]

/-- Witness for C3 amended at the concrete raising environment. -/
theorem C3_callback_exception_propagates_witness :
    TOOLS cEnv3 "query_postgres" = some boomTool ∧
    (generate_from_messages cEnv3 cModel3 [Turn.system "w"] "w3").result =
      Except.error "boom" := by
  have h := C3_callback_exception_propagates cEnv3 cStSys
    ⟨"c3-1", "query_postgres", ""⟩ boomTool [] [] "boom" [] cModel3
    [Turn.system "w"] "w3" rfl rfl rfl rfl rfl
  exact ⟨rfl, h.2⟩

/-! ### C4 -/

/-- Pydantic validation of `QueryPostgresArgs` at the level the claim
needs: `sql` is a required field (`tools.py` 384–395), so an object
without it fails validation with a missing-field violation. -/
def pgValidate : List (String × JsonValue) → Except JsonValue (List (String × JsonValue)) :=
  fun fields =>
    if fields.any (fun kv => decide (kv.1 = "sql")) then Except.ok fields
    else Except.error
      (JsonValue.arr
        [JsonValue.obj
          [("type", JsonValue.str "missing"),
           ("loc", JsonValue.arr [JsonValue.str "sql"])]])

/-- An environment whose SQL tool validates like `QueryPostgresArgs`. -/
def cEnv4 : ToolsEnv :=
  { query_postgres := { validate := pgValidate, callback := fun _ => Except.ok JsonValue.null },
    query_weaviate := okTool, request_user_input := okTool, jsonLoads := smallJson }

/-- C4 counterexample: a registered tool invoked with the empty argument
string does not produce an `invalid_arguments` error — the empty text is
normalized to `"\x7b\x7d"`, parses as an empty object, and fails schema
validation as `invalid_tool_arguments` instead (the callback is still
not invoked). -/
theorem C4_counterexample :
    handle_tools cEnv4 cStSys [⟨"c4-1", "query_postgres", ""⟩] =
      ({ history :=
           [Turn.system "sys", Turn.toolCall "c4-1" "query_postgres" "",
            Turn.toolResult "c4-1"
              (invalid_tool_arguments_error
                (JsonValue.arr
                  [JsonValue.obj
                    [("type", JsonValue.str "missing"),
                     ("loc", JsonValue.arr [JsonValue.str "sql"])]])).as_dict.render],
         tool_call_records := [⟨"query_postgres", "", "c4-1"⟩],
         is_final_answer := false, invocations := [] }, none) ∧
    (invalid_tool_arguments_error
        (JsonValue.arr
          [JsonValue.obj
            [("type", JsonValue.str "missing"),
             ("loc", JsonValue.arr [JsonValue.str "sql"])]])).as_dict.render ≠
      invalid_arguments_error.as_dict.render :=
  ⟨rfl, by decide⟩

/-- C4 amended: for every invocation of a registered tool whose raw
argument text is non-empty and fails to parse as JSON, the appended
result is the `invalid_arguments` Structured Error and the callback is
not invoked; an empty argument text is instead normalized to the empty
object and subjected to schema validation, and an unregistered tool name
produces `unknown_tool` before arguments are examined. -/
theorem C4_unparsable_arguments (env : ToolsEnv) (st : AgentState)
    (tc : ToolCallMsg) (t : LoopTool)
    (h1 : TOOLS env tc.name = some t)
    (h2 : tc.arguments ≠ "")
    (h3 : env.jsonLoads tc.arguments = none) :
    handle_tools env st [tc] =
      ({ st with
          history := st.history ++
            [Turn.toolCall tc.id tc.name tc.arguments,
             Turn.toolResult tc.id invalid_arguments_error.as_dict.render],
          tool_call_records := st.tool_call_records ++ [⟨tc.name, tc.arguments, tc.id⟩] },
       none) := by
  have hfa : tc.name ≠ FINAL_ANSWER_TOOL_NAME := by
    intro h
    rw [h, TOOLS_final_answer] at h1
    exact absurd h1 (by simp)
  have hresp : tool_response env tc =
      ⟨Except.ok invalid_arguments_error.as_dict, false⟩ := by
    simp [tool_response, h1, if_neg h2, h3]
  simp [handle_tools, hresp, hfa]

/-- Witness for C4 amended: unparsable text for a registered tool. -/
theorem C4_unparsable_arguments_witness :
    TOOLS wEnvOk "query_weaviate" = some okTool ∧
    "not json" ≠ "" ∧
    handle_tools wEnvOk cStSys [⟨"w4-1", "query_weaviate", "not json"⟩] =
      ({ history :=
           [Turn.system "sys", Turn.toolCall "w4-1" "query_weaviate" "not json",
            Turn.toolResult "w4-1" invalid_arguments_error.as_dict.render],
         tool_call_records := [⟨"query_weaviate", "not json", "w4-1"⟩],
         is_final_answer := false, invocations := [] }, none) := by
  have h := C4_unparsable_arguments wEnvOk cStSys
    ⟨"w4-1", "query_weaviate", "not json"⟩ okTool rfl (by decide) rfl
  exact ⟨rfl, by decide, by simpa using h⟩

/-! ### C7 -/

/-- Valid final-answer arguments, as a raw JSON text. -/
def finalAnswerArgs : String := "\x7b\"answer\": \"done\"\x7d"

/-- A model that invokes `final_answer` first and then produces text. -/
def cModel7 : Nat → List Choice := fun i =>
  if i = 0 then [⟨none, [⟨"c7-1", "final_answer", finalAnswerArgs⟩]⟩]
  else [⟨some "continuing", []⟩]

/-- C7 counterexample: `final_answer` is a name absent from the `TOOLS`
registry, and although its invocation receives the `unknown_tool` result,
the run terminates because of that invocation — one model request is
issued although the iteration budget is 10 and the model had further
responses. -/
theorem C7_counterexample :
    TOOLS wEnvOk "final_answer" = none ∧
    (generate_from_messages wEnvOk cModel7 [Turn.system "sys"] "q7").requests = 1 ∧
    (generate_from_messages wEnvOk cModel7 [Turn.system "sys"] "q7").result =
      Except.ok (unknown_tool_error "final_answer").as_json :=
  ⟨rfl, rfl, rfl⟩

/-- C7 amended: for every tool invocation naming a tool absent from the
registry and different from `final_answer`, the loop appends the
`unknown_tool` Structured Error as that call's ToolResult and continues
to the next iteration without crashing — the next model request is
issued with the unknown-tool result in the history; an invocation named
`final_answer` (itself absent from the registry) also receives the
`unknown_tool` result but sets the terminal flag and ends the run. -/
theorem C7_unknown_tool_continues (env : ToolsEnv) (st : AgentState)
    (tc : ToolCallMsg) (model : Nat → List Choice) (seed : List Turn) (msg : String)
    (h1 : TOOLS env tc.name = none)
    (h2 : tc.name ≠ FINAL_ANSWER_TOOL_NAME)
    (h3 : model 0 = [⟨none, [tc]⟩]) :
    handle_tools env st [tc] =
      ({ st with
          history := st.history ++
            [Turn.toolCall tc.id tc.name tc.arguments,
             Turn.toolResult tc.id (unknown_tool_error tc.name).as_dict.render],
          tool_call_records := st.tool_call_records ++ [⟨tc.name, tc.arguments, tc.id⟩] },
       none) ∧
    2 ≤ (generate_from_messages env model seed msg).requests ∧
    (generate_from_messages env model seed msg).requestHistories[1]? =
      some ((seed ++ [Turn.user msg]) ++
        [Turn.toolCall tc.id tc.name tc.arguments,
         Turn.toolResult tc.id (unknown_tool_error tc.name).as_dict.render]) := by
  have hresp : tool_response env tc =
      ⟨Except.ok (unknown_tool_error tc.name).as_dict, false⟩ := by
    simp [tool_response, h1]
  have hstep : ∀ s : AgentState,
      handle_tools env s [tc] =
        ({ s with
            history := s.history ++
              [Turn.toolCall tc.id tc.name tc.arguments,
               Turn.toolResult tc.id (unknown_tool_error tc.name).as_dict.render],
            tool_call_records := s.tool_call_records ++ [⟨tc.name, tc.arguments, tc.id⟩] },
         none) := by
    intro s
    simp [handle_tools, hresp, h2]
  refine ⟨hstep st, ?_⟩
  have hloop : generate_from_messages env model seed msg =
      loop_from env model
        { history := (seed ++ [Turn.user msg]) ++
            [Turn.toolCall tc.id tc.name tc.arguments,
             Turn.toolResult tc.id (unknown_tool_error tc.name).as_dict.render],
          tool_call_records := [⟨tc.name, tc.arguments, tc.id⟩],
          is_final_answer := false, invocations := [] }
        1 [seed ++ [Turn.user msg]] 9 := by
    show loop_from env model
      { history := seed ++ [Turn.user msg], tool_call_records := [],
        is_final_answer := false, invocations := [] } 0 [] (9 + 1) = _
    rw [loop_from, h3, process_choices_calls_only env _ [tc] (by simp), hstep _]
    rfl
  have hpre := loop_hists_prefix_succ env model
    { history := (seed ++ [Turn.user msg]) ++
        [Turn.toolCall tc.id tc.name tc.arguments,
         Turn.toolResult tc.id (unknown_tool_error tc.name).as_dict.render],
      tool_call_records := [⟨tc.name, tc.arguments, tc.id⟩],
      is_final_answer := false, invocations := [] }
    1 [seed ++ [Turn.user msg]] 8
  rw [hloop]
  constructor
  · have hlen := hpre.length_le
    simpa [RunResult.requests] using hlen
  · obtain ⟨tail, htail⟩ := hpre
    rw [← htail]
    rw [List.getElem?_append_left (by simp)]
    rfl

/-- A model invoking an unregistered tool name first, then only text. -/
def wModel7 : Nat → List Choice := fun i =>
  if i = 0 then [⟨none, [⟨"w7-1", "does_not_exist", "x"⟩]⟩]
  else [⟨some "after", []⟩]

/-- Witness for C7 amended at a concrete unregistered tool name. -/
theorem C7_unknown_tool_continues_witness :
    TOOLS wEnvOk "does_not_exist" = none ∧
    2 ≤ (generate_from_messages wEnvOk wModel7 [Turn.system "s"] "q7w").requests ∧
    (generate_from_messages wEnvOk wModel7 [Turn.system "s"] "q7w").requestHistories[1]? =
      some (([Turn.system "s"] ++ [Turn.user "q7w"]) ++
        [Turn.toolCall "w7-1" "does_not_exist" "x",
         Turn.toolResult "w7-1" (unknown_tool_error "does_not_exist").as_dict.render]) := by
  have h := C7_unknown_tool_continues wEnvOk cStSys
    ⟨"w7-1", "does_not_exist", "x"⟩ wModel7 [Turn.system "s"] "q7w"
    rfl (by decide) rfl
  exact ⟨rfl, h.2.1, h.2.2⟩

/-! ### C1 -/

/-- A model whose first response invokes the terminal tool with a valid
answer payload, with further responses available afterwards. -/
def cModel1 : Nat → List Choice := fun i =>
  if i = 0 then
    [⟨none, [⟨"call-1", "final_answer", "\x7b\"answer\": \"The price is 29.99\"\x7d"⟩]⟩]
  else [⟨some "later", []⟩]

/-- C1, evaluated at the failing input: when the model invokes
`final_answer` with an answer, the loop does stop issuing model requests,
but — because `final_answer` is absent from the `TOOLS` registry built
from `ALL_TOOLS` — the value returned is the serialized `unknown_tool`
Structured Error, not the call's `answer` argument. -/
theorem C1_final_answer_payload_lost :
    (generate_from_messages wEnvOk cModel1 [Turn.system "sys"] "price?").result =
      Except.ok (unknown_tool_error "final_answer").as_json ∧
    (unknown_tool_error "final_answer").as_json =
      "\x7b\"type\": \"error\", \"reason\": \"unknown_tool\", \"message\": \"Unknown tool: final_answer\", \"details\": \x7b\"tool_name\": \"final_answer\"\x7d\x7d" ∧
    (unknown_tool_error "final_answer").as_json ≠ "The price is 29.99" ∧
    (generate_from_messages wEnvOk cModel1 [Turn.system "sys"] "price?").requests = 1 ∧
    (generate_from_messages wEnvOk cModel1 [Turn.system "sys"] "price?").state.is_final_answer =
      true :=
  ⟨rfl, rfl, by decide, rfl, rfl⟩

/-! ### C9 -/

/-- C9: `query_postgres` returns at most `min(max(limit, 1), 200)` rows;
an empty or whitespace-only statement yields the `invalid_sql` error
without consulting the database at all; a non-row-returning statement
reports its `rowcount`; and for a row-returning statement the rows are
the clamped prefix of the result, with `truncated` set to `True` exactly
when the underlying result held more rows than the clamp and omitted
(`None`) otherwise. -/
theorem C9_query_postgres_contract (env : PgEnv) (sql : String) (limit : Int) :
    ((query_postgres env sql limit).rows.length ≤ (min (max limit 1) 200).toNat) ∧
    (pyStrip sql = "" →
      query_postgres env sql limit =
        { rows := [],
          error := some { reason := "invalid_sql",
                          message := "SQL statement must not be empty." } } ∧
      ∀ env2 : PgEnv, query_postgres env2 sql limit = query_postgres env sql limit) ∧
    (∀ rc : Int, pyStrip sql ≠ "" → env.engine = Except.ok () →
      env.exec (pyStrip sql) = PgExec.noRowsRes rc →
      (query_postgres env sql limit).rowcount = some rc) ∧
    (∀ rs, pyStrip sql ≠ "" → env.engine = Except.ok () →
      env.exec (pyStrip sql) = PgExec.rowsRes rs →
      (query_postgres env sql limit).rows = rs.take (min (max limit 1) 200).toNat ∧
      ((query_postgres env sql limit).truncated = some true ↔
        (min (max limit 1) 200).toNat < rs.length) ∧
      (rs.length ≤ (min (max limit 1) 200).toNat →
        (query_postgres env sql limit).truncated = none)) := by
  have hcap : (max 1 (min limit 200)).toNat = (min (max limit 1) 200).toNat := by
    omega
  refine ⟨?_, ?_, ?_, ?_⟩
  · by_cases hs : pyStrip sql = ""
    · simp [query_postgres, hs]
    · cases heng : env.engine with
      | error m => simp [query_postgres, hs, heng]
      | ok u =>
          cases u
          cases hex : env.exec (pyStrip sql) with
          | rowsRes rs =>
              simp only [query_postgres, hs, if_false, heng, hex]
              simp [List.length_take]
              omega
          | noRowsRes rc => simp [query_postgres, hs, heng, hex]
          | raiseSqlAlchemy m => simp [query_postgres, hs, heng, hex]
          | raiseOther m => simp [query_postgres, hs, heng, hex]
  · intro hs
    constructor
    · simp [query_postgres, hs]
    · intro env2
      simp [query_postgres, hs]
  · intro rc hs heng hex
    simp [query_postgres, hs, heng, hex]
  · intro rs hs heng hex
    have h1 : query_postgres env sql limit =
        { rows := rs.take (max 1 (min limit 200)).toNat,
          truncated :=
            if decide ((max 1 (min limit 200)).toNat < rs.length) then some true
            else none } := by
      simp [query_postgres, hs, heng, hex]
    rw [h1, hcap]
    refine ⟨rfl, ?_, ?_⟩
    · by_cases hlt : (min (max limit 1) 200).toNat < rs.length
      · simp [hlt]
      · simp [hlt]
    · intro hle
      have hlt : ¬(min (max limit 1) 200).toNat < rs.length := by omega
      simp [hlt]

/-- A database of three rows for the witness run. -/
def wPg : PgEnv :=
  { engine := Except.ok (),
    exec := fun _ =>
      PgExec.rowsRes
        [[("price", JsonValue.num 1)], [("price", JsonValue.num 2)],
         [("price", JsonValue.num 3)]] }

/-- Witness for C9: three underlying rows against limit 2 produce at most
two rows and `truncated = True`; an empty statement yields `invalid_sql`. -/
theorem C9_query_postgres_contract_witness :
    (query_postgres wPg "SELECT 1" 2).rows.length ≤ (min (max (2 : Int) 1) 200).toNat ∧
    (query_postgres wPg "SELECT 1" 2).truncated = some true ∧
    (query_postgres wPg "  " 2).error =
      some { reason := "invalid_sql", message := "SQL statement must not be empty." } := by
  have h := C9_query_postgres_contract wPg "SELECT 1" 2
  have h4 := h.2.2.2
    [[("price", JsonValue.num 1)], [("price", JsonValue.num 2)],
     [("price", JsonValue.num 3)]]
    (by decide) rfl rfl
  have he := (C9_query_postgres_contract wPg "  " 2).2.1 (by decide)
  exact ⟨h.1, h4.2.1.mpr (by decide), by rw [he.1]⟩

/-! ### C10 -/

/-- C10: constructing a `SearchAgent` never mutates the caller-supplied
tools sequence — the entry at the caller's address is unchanged by
`__init__`, even when `final_answer` is absent from it and is appended to
the agent's own freshly allocated `tool_spec` list. -/
theorem C10_init_does_not_mutate_tools (store : List (List String)) (a : Nat)
    (h : a < store.length) :
    ((init_tool_spec store a).1)[a]? = store[a]? ∧
    (((store.getD a []).any (fun n => decide (n = FINAL_ANSWER_TOOL_NAME)) = false) →
      ((init_tool_spec store a).1)[(init_tool_spec store a).2]? =
        some (store.getD a [] ++ [FINAL_ANSWER_TOOL_NAME])) := by
  by_cases hany :
      (store.getD a []).any (fun n => decide (n = FINAL_ANSWER_TOOL_NAME)) = true
  · constructor
    · simp only [init_tool_spec, hany, if_true]
      exact List.getElem?_append_left h
    · intro hcontra
      rw [hany] at hcontra
      cases hcontra
  · have hany2 :
        (store.getD a []).any (fun n => decide (n = FINAL_ANSWER_TOOL_NAME)) = false := by
      cases hx : (store.getD a []).any (fun n => decide (n = FINAL_ANSWER_TOOL_NAME))
      · rfl
      · exact absurd hx hany
    have hset : (store ++ [store.getD a []]).set store.length
          (store.getD a [] ++ [FINAL_ANSWER_TOOL_NAME]) =
        store ++ [store.getD a [] ++ [FINAL_ANSWER_TOOL_NAME]] := by
      rw [List.set_append]
      simp
    constructor
    · simp only [init_tool_spec, hany2, Bool.false_eq_true, if_false]
      rw [hset]
      exact List.getElem?_append_left h
    · intro _
      simp only [init_tool_spec, hany2, Bool.false_eq_true, if_false]
      rw [hset]
      exact List.getElem?_concat_length _ _

/-- Witness for C10: a one-element store without the final-answer name.
The caller's entry is untouched and the fresh list got the append. -/
theorem C10_init_does_not_mutate_tools_witness :
    ((init_tool_spec [["query_postgres"]] 0).1)[0]? =
      ([["query_postgres"]] : List (List String))[0]? ∧
    ((init_tool_spec [["query_postgres"]] 0).1)[(init_tool_spec [["query_postgres"]] 0).2]? =
      some (([["query_postgres"]] : List (List String)).getD 0 [] ++
        [FINAL_ANSWER_TOOL_NAME]) := by
  have h := C10_init_does_not_mutate_tools [["query_postgres"]] 0 (by decide)
  exact ⟨h.1, h.2 (by decide)⟩

end NoDepRAGAgent
